import Mathlib

/-!
Verification development for the manga-panel-processor repository.

Shallow embedding of the two core source files:
  src/manga_panel_processor/layout.py       (sort_panels_by_column_then_row)
  src/image_panel_border_cleaner/border.py  (_find_best_border_line, remove_border)

Python machine values are modelled exactly: integer rectangle coordinates
as ℤ, the float quantities x + w/2, full_width * 0.6 and the score
continuity * (1 + progress/span) as exact rationals ℚ (the source only
ever forms dyadic and decimal values small enough that exact arithmetic
and IEEE doubles agree on every comparison exercised here), Python list
indexing that can raise IndexError as Option, and functions that can
raise as Option-valued functions (none = an exception escaped).
-/

/-! ## Data model (layout.py) -/

/-- An axis-aligned panel rectangle: the tuple `x, y, w, h` that
`layout.py` obtains either directly from the item or from
`cv2.boundingRect`.  Integer fields, as produced by OpenCV. -/
structure Rect where
  x : ℤ
  y : ℤ
  w : ℤ
  h : ℤ
deriving DecidableEq, Repr

/-- One entry of the `data` list built in step 1 of
`sort_panels_by_column_then_row`: the Python tuple
`(item, x + w/2, y, x, y, w, h)`.  `xCenter` is the float `x + w/2`
(exact in ℚ) and `yTop` is `y`. -/
structure PanelData (α : Type) where
  item : α
  xCenter : ℚ
  yTop : ℤ
  x : ℤ
  y : ℤ
  w : ℤ
  h : ℤ
deriving DecidableEq, Repr

/-- Python `max(l, key=key)` wrapped in Option: `none` on the empty list
(where Python raises ValueError), otherwise the first element attaining
the maximal key (Python `max` replaces the running maximum only on a
strictly larger key). -/
def pyMaxBy (key : α → ℚ) : List α → Option α
  | [] => none
  | x :: xs => some (xs.foldl (fun m a => if key m < key a then a else m) x)

/-- Step 1 of `sort_panels_by_column_then_row`: build the `data` list.
The caller-supplied item is kept in full; `f` extracts its rectangle
(it stands for the source's `cv2.boundingRect(item)` / tuple-unpacking
branch on each item). -/
def panelData (f : α → Rect) (items : List α) : List (PanelData α) :=
  items.map (fun it =>
    { item := it
      xCenter := ((f it).x : ℚ) + ((f it).w : ℚ) / 2
      yTop := (f it).y
      x := (f it).x
      y := (f it).y
      w := (f it).w
      h := (f it).h })

/-- The running maximum `max_x2` of `x + w` over all items, initialised
to `0` exactly as in the source loop; the source names the final value
`full_width`. -/
def fullWidth (f : α → Rect) (items : List α) : ℤ :=
  items.foldl (fun m it => max m ((f it).x + (f it).w)) 0

/-- Step 2, first comprehension: the `spanning` list,
`[d for d in data if d[5] >= full_width * 0.6]`. -/
def spanningOf (f : α → Rect) (items : List α) : List (PanelData α) :=
  (panelData f items).filter
    (fun d => decide ((fullWidth f items : ℚ) * 0.6 ≤ (d.w : ℚ)))

/-- The sort key `lambda d: d[1]` (x_center) as an order relation. -/
def leXC (a b : PanelData α) : Prop := a.xCenter ≤ b.xCenter

instance : DecidableRel (@leXC α) :=
  fun a b => inferInstanceAs (Decidable (a.xCenter ≤ b.xCenter))

instance : IsTotal (PanelData α) leXC := ⟨fun a b => le_total a.xCenter b.xCenter⟩

instance : IsTrans (PanelData α) leXC := ⟨fun _ _ _ h1 h2 => le_trans h1 h2⟩

/-- The sort key `lambda d: d[2]` (y_top) as an order relation. -/
def leYT (a b : PanelData α) : Prop := a.yTop ≤ b.yTop

instance : DecidableRel (@leYT α) :=
  fun a b => inferInstanceAs (Decidable (a.yTop ≤ b.yTop))

instance : IsTotal (PanelData α) leYT := ⟨fun a b => le_total a.yTop b.yTop⟩

instance : IsTrans (PanelData α) leYT := ⟨fun _ _ _ h1 h2 => le_trans h1 h2⟩

/-- Step 2 with its guard: `remaining = [d for d in data if d not in
spanning]`, then if `len(remaining) < 2` the source resets
`remaining = data; spanning = []`.  Returns `(remaining, spanning)`
after the guard. -/
def splitSpanning [DecidableEq α] (f : α → Rect) (items : List α) :
    List (PanelData α) × List (PanelData α) :=
  let data := panelData f items
  let spanning := spanningOf f items
  let remaining := data.filter (fun d => decide (d ∉ spanning))
  if remaining.length < 2 then (data, []) else (remaining, spanning)

/-- `remaining.sort(key=lambda d: d[1])`: a stable ascending sort of the
post-guard `remaining` by `x_center`.  Python's list.sort and
`List.insertionSort` are both stable sorts, hence compute the same
function of the key order. -/
def sortedRemaining [DecidableEq α] (f : α → Rect) (items : List α) :
    List (PanelData α) :=
  (splitSpanning f items).1.insertionSort leXC

/-- `x_centers = [d[1] for d in remaining]` (after the in-place sort). -/
def xCenters [DecidableEq α] (f : α → Rect) (items : List α) : List ℚ :=
  (sortedRemaining f items).map (fun d => d.xCenter)

/-- `gaps = [(x_centers[i+1] - x_centers[i], i) for i in
range(len(x_centers)-1)]`.  Both indices are < len(x_centers), so the
total `getD` access is exact. -/
def gapsOf [DecidableEq α] (f : α → Rect) (items : List α) : List (ℚ × ℕ) :=
  (List.range ((xCenters f items).length - 1)).map
    (fun i => ((xCenters f items).getD (i + 1) 0 - (xCenters f items).getD i 0, i))

/-- `split_idx = max(gaps, key=lambda g: g[0])[1] if gaps else 0`. -/
def splitIdxOf [DecidableEq α] (f : α → Rect) (items : List α) : ℕ :=
  match pyMaxBy (fun g => g.1) (gapsOf f items) with
  | some g => g.2
  | none => 0

/-- `split_x = (x_centers[split_idx] + x_centers[split_idx+1]) / 2`.
Each subscript is a Python list index that raises IndexError when out of
range; `none` models that exception escaping the function. -/
def splitXOf [DecidableEq α] (f : α → Rect) (items : List α) : Option ℚ :=
  match (xCenters f items)[splitIdxOf f items]?,
        (xCenters f items)[splitIdxOf f items + 1]? with
  | some a, some b => some ((a + b) / 2)
  | _, _ => none

/-- Step 8 of the source, the final merge loop: repeatedly take the
spanning head when `spanning_sorted[j][2] < non_spanning[i][2]`
(strictly), else the non-spanning head; then append the leftovers of
either list, emitting `d[0]` (the original item) throughout. -/
def mergeByYTop : List (PanelData α) → List (PanelData α) → List α
  | ns, [] => ns.map (fun d => d.item)
  | [], s :: ss => (s :: ss).map (fun d => d.item)
  | n :: ns, s :: ss =>
    if s.yTop < n.yTop then s.item :: mergeByYTop (n :: ns) ss
    else n.item :: mergeByYTop ns (s :: ss)

/-- `sort_panels_by_column_then_row(items, rtl_order)` from layout.py.
`f` extracts each item's rectangle (the source's per-item
`cv2.boundingRect` / tuple unpacking); the result is `none` exactly when
the Python function raises (the `x_centers[split_idx+1]` IndexError). -/
def sort_panels_by_column_then_row [DecidableEq α] (f : α → Rect)
    (items : List α) (rtl_order : Bool) : Option (List α) :=
  if items = [] then some [] else
  match splitXOf f items with
  | none => none
  | some split_x =>
    let sortedRem := sortedRemaining f items
    let left_group := sortedRem.filter (fun d => decide (d.xCenter < split_x))
    let right_group := sortedRem.filter (fun d => decide (split_x ≤ d.xCenter))
    let columns := if rtl_order then [right_group, left_group]
                   else [left_group, right_group]
    let non_spanning := columns.foldl
      (fun acc col => acc ++ col.insertionSort leYT) []
    let spanning_sorted := (splitSpanning f items).2.insertionSort leYT
    some (mergeByYTop non_spanning spanning_sorted)

/-! ## Data model (border.py) -/

/-- A Python `range(start, stop, step)` with `|step| = 1` and the step's
sign matching `sign(stop - start)`, which is the shape of all four scan
ranges built by `remove_border` (`range(a, -1, -1)` and `range(b, h)`),
and the ScanSpec shape of the spec: direction is implied by the sign of
`stop - start`. -/
structure ScanRange where
  start : ℤ
  stop : ℤ
deriving DecidableEq, Repr

/-- The `k`-th element visited by the scan: `start + k` when ascending,
`start - k` when descending. -/
def ScanRange.elem (r : ScanRange) (k : ℕ) : ℤ :=
  if r.start ≤ r.stop then r.start + k else r.start - k

/-- The full sequence of indices visited by `for i in scan_range`:
inclusive of `start`, exclusive of `stop`, in scan order. -/
def ScanRange.toList (r : ScanRange) : List ℤ :=
  if r.start ≤ r.stop then
    (List.range (r.stop - r.start).toNat).map (fun (k : ℕ) => r.start + (k : ℤ))
  else
    (List.range (r.start - r.stop).toNat).map (fun (k : ℕ) => r.start - (k : ℤ))

/-- `np.count_nonzero` over one extracted line of the mask. -/
def countNonzero (l : List ℕ) : ℕ :=
  (l.filter (fun v => decide (v ≠ 0))).length

/-- `roi_mask[i, :]`: row `i` of the mask (an out-of-mask row reads as
empty, i.e. all background). -/
def maskRow (m : List (List ℕ)) (i : ℤ) : List ℕ :=
  if 0 ≤ i then m.getD i.toNat [] else []

/-- `roi_mask[:, i]`: column `i` of the mask (an out-of-mask entry reads
as 0, i.e. background). -/
def maskCol (m : List (List ℕ)) (i : ℤ) : List ℕ :=
  if 0 ≤ i then m.map (fun row => row.getD i.toNat 0) else []

/-- The `continuity_score` of line `i`: row count when `axis == 1`,
column count otherwise. -/
def continuity (m : List (List ℕ)) (axis : ℕ) (i : ℤ) : ℕ :=
  if axis = 1 then countNonzero (maskRow m i) else countNonzero (maskCol m i)

/-- `score = continuity_score * (1 + position_weight)` with
`position_weight = abs(i - start) / total_span`, computed exactly. -/
def lineScore (m : List (List ℕ)) (axis : ℕ) (r : ScanRange) (i : ℤ) : ℚ :=
  (continuity m axis i : ℚ) *
    (1 + ((i - r.start).natAbs : ℚ) / ((r.stop - r.start).natAbs : ℚ))

/-- The loop body of `_find_best_border_line`: update `(best_index,
max_score)` whenever `score >= max_score`. -/
def argStep (g : ℤ → ℚ) (acc : ℤ × ℚ) (i : ℤ) : ℤ × ℚ :=
  if acc.2 ≤ g i then (i, g i) else acc

/-- `_find_best_border_line(roi_mask, axis, scan_range)` from border.py:
initialise `(best_index, max_score) = (scan_range.start, -1)`, return
`start` when the span is 0, otherwise fold the update loop over the
scanned indices and return the final best index. -/
def find_best_border_line (roi_mask : List (List ℕ)) (axis : ℕ)
    (scan_range : ScanRange) : ℤ :=
  if (scan_range.stop - scan_range.start).natAbs = 0 then scan_range.start
  else
    (scan_range.toList.foldl (argStep (lineScore roi_mask axis scan_range))
      (scan_range.start, (-1 : ℚ))).1

/-- An image as `remove_border` observes it: `height = shape[0]`,
`width = shape[1]`, plus an opaque payload tag distinguishing pixel
contents (the core never reads pixels itself). -/
structure Image where
  height : ℕ
  width : ℕ
  tag : ℕ
deriving DecidableEq, Repr

/-- A contour as returned by `cv2.findContours`: a list of points. -/
abbrev Contour : Type := List (ℤ × ℤ)

/-- The external OpenCV collaborators used by `remove_border`, out of
scope per the spec and abstracted as pure functions: padding
(`cv2.copyMakeBorder`), grayscale+threshold, contour extraction,
contour area, bounding rectangle, the fill/erode/subtract/thin/crop
pipeline producing the ROI skeleton mask, and the final pixel crop
`padded_image[y1:y2, x1:x2]`. -/
structure CvOps where
  copyMakeBorder : Image → ℕ → Image
  threshold : Image → List (List ℕ)
  findContours : List (List ℕ) → List Contour
  contourArea : Contour → ℚ
  boundingRect : Contour → Rect
  skeletonRoi : List (List ℕ) → Contour → Rect → List (List ℕ)
  crop : Image → ℤ → ℤ → ℤ → ℤ → Image

/-- The crop-coordinate computation of `remove_border` (steps 1-4 of the
source after the size gate): pad by 15, threshold, take the
largest-area contour (`none` when `contours` is empty), build the ROI
skeleton, run the four border scans, and return
`(final_x1, final_y1, final_x2, final_y2)`.  `int(h * ratio)` truncates
toward zero in Python; `boundingRect` yields `h, w ≥ 0` so it equals
the floor used here. -/
def cropCoords (ops : CvOps) (img : Image) (search_zone_ratio : ℚ)
    (padding : ℤ) : Option (ℤ × ℤ × ℤ × ℤ) :=
  let padded := ops.copyMakeBorder img 15
  let thresh := ops.threshold padded
  let contours := ops.findContours thresh
  match pyMaxBy ops.contourArea contours with
  | none => none
  | some largest =>
    let r := ops.boundingRect largest
    let roi_mask := ops.skeletonRoi thresh largest r
    let top_search_end : ℤ := ⌊(r.h : ℚ) * search_zone_ratio⌋
    let bottom_search_start : ℤ := r.h - top_search_end
    let left_search_end : ℤ := ⌊(r.w : ℚ) * search_zone_ratio⌋
    let right_search_start : ℤ := r.w - left_search_end
    let best_top := find_best_border_line roi_mask 1 ⟨top_search_end, -1⟩
    let best_bottom := find_best_border_line roi_mask 1 ⟨bottom_search_start, r.h⟩
    let best_left := find_best_border_line roi_mask 0 ⟨left_search_end, -1⟩
    let best_right := find_best_border_line roi_mask 0 ⟨right_search_start, r.w⟩
    some (r.x + best_left + padding, r.y + best_top + padding,
          r.x + best_right - padding, r.y + best_bottom - padding)

/-- `remove_border(panel_image, search_zone_ratio, padding)` from
border.py: the input is `none` when `panel_image is None` (the source
then returns it unchanged).  Gates, in source order: size below 30, no
contour found (`cropCoords` is `none` exactly when `contours` is
empty), degenerate crop coordinates, and a final cropped size below
10; each gate returns the input image unchanged. -/
def remove_border (ops : CvOps) (panel_image : Option Image)
    (search_zone_ratio : ℚ) (padding : ℤ) : Option Image :=
  match panel_image with
  | none => none
  | some img =>
    if img.height < 30 ∨ img.width < 30 then some img else
    match cropCoords ops img search_zone_ratio padding with
    | none => some img
    | some (x1, y1, x2, y2) =>
      if x2 ≤ x1 ∨ y2 ≤ y1 then some img
      else
        let cropped := ops.crop (ops.copyMakeBorder img 15) y1 y2 x1 x2
        if cropped.height < 10 ∨ cropped.width < 10 then some img
        else some cropped

/-- A concrete collaborator assembly whose contour extraction finds
nothing: exercises the no-contour early exit. -/
def opsNoContour : CvOps where
  copyMakeBorder := fun i _ => i
  threshold := fun _ => []
  findContours := fun _ => []
  contourArea := fun _ => 0
  boundingRect := fun _ => ⟨0, 0, 0, 0⟩
  skeletonRoi := fun _ _ _ => []
  crop := fun i _ _ _ _ => i

/-- A concrete collaborator assembly that finds one 40×40 contour with
an empty skeleton, and whose crop reports the requested rectangle size:
exercises the degenerate-coordinate and too-small-crop early exits. -/
def opsProbe : CvOps where
  copyMakeBorder := fun i _ => i
  threshold := fun _ => []
  findContours := fun _ => [[(0, 0)]]
  contourArea := fun _ => 0
  boundingRect := fun _ => ⟨0, 0, 40, 40⟩
  skeletonRoi := fun _ _ _ => []
  crop := fun i y1 y2 x1 x2 => ⟨(y2 - y1).toNat, (x2 - x1).toNat, i.tag⟩

/-! ## Helper lemmas: the weighted argmax fold of `_find_best_border_line` -/

/-- Structure of the scan loop: folding `argStep g` over `l` either
leaves the accumulator untouched (every score strictly below the
running maximum) or lands on an element of `l` whose score is its
value, dominates the initial maximum and every earlier element weakly,
and every later element strictly. -/
theorem argStep_foldl_spec (g : ℤ → ℚ) :
    ∀ (l : List ℤ) (init : ℤ × ℚ),
      (List.foldl (argStep g) init l = init ∧ ∀ j ∈ l, g j < init.2) ∨
      (∃ l1 l2,
        l = l1 ++ (List.foldl (argStep g) init l).1 :: l2 ∧
        (List.foldl (argStep g) init l).2 = g (List.foldl (argStep g) init l).1 ∧
        init.2 ≤ (List.foldl (argStep g) init l).2 ∧
        (∀ j ∈ l1, g j ≤ (List.foldl (argStep g) init l).2) ∧
        (∀ j ∈ l2, g j < (List.foldl (argStep g) init l).2)) := by
  intro l
  induction l with
  | nil =>
    intro init
    exact Or.inl ⟨rfl, by simp⟩
  | cons x xs ih =>
    intro init
    rw [List.foldl_cons]
    by_cases hx : init.2 ≤ g x
    · have hstep : argStep g init x = (x, g x) := by rw [argStep, if_pos hx]
      rw [hstep]
      rcases ih (x, g x) with ⟨heq, hall⟩ | ⟨l1, l2, heq, hval, hinit, hle, hlt⟩
      · refine Or.inr ⟨[], xs, ?_, ?_, ?_, ?_, ?_⟩
        · rw [heq]; rfl
        · rw [heq]
        · rw [heq]; exact hx
        · intro j hj; cases hj
        · intro j hj; rw [heq]; exact hall j hj
      · refine Or.inr ⟨x :: l1, l2, ?_, hval, ?_, ?_, hlt⟩
        · rw [List.cons_append, ← heq]
        · exact le_trans hx hinit
        · intro j hj
          rcases List.mem_cons.mp hj with hj | hj
          · subst hj; exact hinit
          · exact hle j hj
    · have hstep : argStep g init x = init := by rw [argStep, if_neg hx]
      rw [hstep]
      rcases ih init with ⟨heq, hall⟩ | ⟨l1, l2, heq, hval, hinit, hle, hlt⟩
      · refine Or.inl ⟨heq, ?_⟩
        intro j hj
        rcases List.mem_cons.mp hj with hj | hj
        · subst hj; exact lt_of_not_le hx
        · exact hall j hj
      · refine Or.inr ⟨x :: l1, l2, ?_, hval, hinit, ?_, hlt⟩
        · rw [List.cons_append, ← heq]
        · intro j hj
          rcases List.mem_cons.mp hj with hj | hj
          · subst hj; exact le_trans (le_of_lt (lt_of_not_le hx)) hinit
          · exact hle j hj

/-! ## Helper lemmas: scan ranges -/

/-- The scanned sequence is the image of `elem` over `range span`. -/
theorem ScanRange.toList_eq_map (r : ScanRange) :
    r.toList = (List.range (r.stop - r.start).natAbs).map r.elem := by
  rw [ScanRange.toList]
  by_cases h : r.start ≤ r.stop
  · rw [if_pos h]
    have hn : (r.stop - r.start).toNat = (r.stop - r.start).natAbs := by omega
    rw [hn]
    refine List.map_congr_left ?_
    intro k _
    rw [ScanRange.elem, if_pos h]
  · rw [if_neg h]
    have hn : (r.start - r.stop).toNat = (r.stop - r.start).natAbs := by omega
    rw [hn]
    refine List.map_congr_left ?_
    intro k _
    rw [ScanRange.elem, if_neg h]

/-- The scan visits exactly `span = |stop - start|` indices. -/
theorem ScanRange.length_toList (r : ScanRange) :
    r.toList.length = (r.stop - r.start).natAbs := by
  rw [r.toList_eq_map, List.length_map, List.length_range]

theorem ScanRange.elem_mem_toList (r : ScanRange) {k : ℕ}
    (hk : k < (r.stop - r.start).natAbs) : r.elem k ∈ r.toList := by
  rw [r.toList_eq_map]
  exact List.mem_map_of_mem _ (List.mem_range.mpr hk)

theorem ScanRange.mem_toList_iff (r : ScanRange) {i : ℤ} :
    i ∈ r.toList ↔ ∃ k, k < (r.stop - r.start).natAbs ∧ i = r.elem k := by
  rw [r.toList_eq_map, List.mem_map]
  constructor
  · rintro ⟨k, hk, hek⟩
    exact ⟨k, List.mem_range.mp hk, hek.symm⟩
  · rintro ⟨k, hk, hik⟩
    exact ⟨k, List.mem_range.mpr hk, hik.symm⟩

/-- The element at scan position `n - 1` is the last index visited. -/
theorem ScanRange.getElem_last (r : ScanRange)
    (hn : (r.stop - r.start).natAbs ≠ 0) :
    r.toList[(r.stop - r.start).natAbs - 1]? =
      some (r.elem ((r.stop - r.start).natAbs - 1)) := by
  rw [r.toList_eq_map, List.getElem?_map, List.getElem?_range (by omega)]
  rfl

/-- `progress = |i - start|` of the `k`-th scanned index is `k`. -/
theorem ScanRange.natAbs_elem_sub (r : ScanRange) (k : ℕ) :
    (r.elem k - r.start).natAbs = k := by
  rw [ScanRange.elem]
  by_cases h : r.start ≤ r.stop
  · rw [if_pos h]; omega
  · rw [if_neg h]; omega

/-- The score of the `k`-th scanned index, with the progress weight in
closed form. -/
theorem lineScore_elem (m : List (List ℕ)) (axis : ℕ) (r : ScanRange) (k : ℕ) :
    lineScore m axis r (r.elem k) =
      (continuity m axis (r.elem k) : ℚ) *
        (1 + (k : ℚ) / ((r.stop - r.start).natAbs : ℚ)) := by
  rw [lineScore, ScanRange.natAbs_elem_sub]

theorem lineScore_nonneg (m : List (List ℕ)) (axis : ℕ) (r : ScanRange)
    (i : ℤ) : 0 ≤ lineScore m axis r i := by
  rw [lineScore]
  positivity

/-- On a constant-continuity mask the score is monotone in scan
position. -/
theorem lineScore_elem_mono (m : List (List ℕ)) (axis : ℕ) (r : ScanRange)
    (c : ℕ) {p q : ℕ}
    (hc : ∀ i ∈ r.toList, continuity m axis i = c)
    (hp : p < (r.stop - r.start).natAbs) (hq : q < (r.stop - r.start).natAbs)
    (hpq : p ≤ q) :
    lineScore m axis r (r.elem p) ≤ lineScore m axis r (r.elem q) := by
  rw [lineScore_elem, lineScore_elem, hc _ (r.elem_mem_toList hp),
    hc _ (r.elem_mem_toList hq)]
  have hnpos : (0 : ℚ) < ((r.stop - r.start).natAbs : ℚ) := by
    exact_mod_cast Nat.pos_of_ne_zero (by omega)
  have hdiv : (p : ℚ) / ((r.stop - r.start).natAbs : ℚ) ≤
      (q : ℚ) / ((r.stop - r.start).natAbs : ℚ) := by
    apply div_le_div_of_nonneg_right ?_ (le_of_lt hnpos)
    exact_mod_cast hpq
  have hcnn : (0 : ℚ) ≤ (c : ℚ) := by positivity
  nlinarith [hdiv, hcnn]

/-- Shared core of the uniform-mask analysis: on a scan range with
positive span whose every visited line has the same continuity `c`, the
loop of `_find_best_border_line` ends on the last visited index,
because the progress weight never decreases and the `>=` update keeps
the latest of tied candidates. -/
theorem uniform_scan_returns_last (m : List (List ℕ)) (axis : ℕ)
    (r : ScanRange) (c : ℕ)
    (hspan : (r.stop - r.start).natAbs ≠ 0)
    (hc : ∀ i ∈ r.toList, continuity m axis i = c) :
    find_best_border_line m axis r =
      r.elem ((r.stop - r.start).natAbs - 1) := by
  rw [find_best_border_line, if_neg hspan]
  set g := lineScore m axis r with hg
  set res := List.foldl (argStep g) (r.start, (-1 : ℚ)) r.toList with hres
  have hlen : r.toList.length = (r.stop - r.start).natAbs := r.length_toList
  have hne : r.toList ≠ [] := by
    intro habs
    rw [habs] at hlen
    simp at hlen
    omega
  rcases argStep_foldl_spec g r.toList (r.start, (-1 : ℚ)) with
    ⟨_, hall⟩ | ⟨l1, l2, heq, hval, _, _, hlt⟩
  · exfalso
    rcases List.exists_mem_of_ne_nil r.toList hne with ⟨j, hj⟩
    have h1 : g j < -1 := hall j hj
    have h2 : (0 : ℚ) ≤ g j := lineScore_nonneg m axis r j
    linarith
  · rw [← hres] at heq hval hlt
    obtain ⟨p, hp, hbp⟩ : ∃ k, k < (r.stop - r.start).natAbs ∧
        res.1 = r.elem k := by
      refine r.mem_toList_iff.mp ?_
      rw [heq]
      exact List.mem_append_right _ (List.mem_cons_self _ _)
    have hcase : l2 = [] := by
      rcases List.eq_nil_or_concat l2 with h2 | ⟨L, j, h2⟩
      · exact h2
      · exfalso
        rw [List.concat_eq_append] at h2
        have hjmem : j ∈ l2 := by rw [h2]; exact List.mem_append_right _ (List.mem_cons_self _ _)
        have hjlt : g j < res.2 := hlt j hjmem
        have hA : r.toList = (l1 ++ res.1 :: L) ++ [j] := by
          rw [heq, h2]
          simp
        have hAlen : (l1 ++ res.1 :: L).length + 1 = (r.stop - r.start).natAbs := by
          rw [← hlen, hA]
          simp
          omega
        have hjlast : j = r.elem ((r.stop - r.start).natAbs - 1) := by
          have h1 : r.toList[(r.stop - r.start).natAbs - 1]? = some j := by
            rw [hA, List.getElem?_append_right (by omega)]
            have hidx : (r.stop - r.start).natAbs - 1 - (l1 ++ res.1 :: L).length = 0 := by
              omega
            rw [hidx]
            rfl
          have h2 := r.getElem_last hspan
          rw [h1] at h2
          exact Option.some_inj.mp h2
        have hge : g res.1 ≤ g j := by
          rw [hbp, hjlast, hg]
          exact lineScore_elem_mono m axis r c hc hp (by omega) (by omega)
        rw [hval] at hjlt
        linarith
    rw [hcase] at heq
    have hAlen : l1.length + 1 = (r.stop - r.start).natAbs := by
      rw [← hlen, heq]
      simp
    have h1 : r.toList[(r.stop - r.start).natAbs - 1]? = some res.1 := by
      rw [heq, List.getElem?_append_right (by omega)]
      have hidx : (r.stop - r.start).natAbs - 1 - l1.length = 0 := by omega
      rw [hidx]
      rfl
    have h2 := r.getElem_last hspan
    rw [h1] at h2
    exact Option.some_inj.mp h2

/-! ## Claims about `_find_best_border_line` -/

/-- Claim C9: for every mask, whenever the scan range has span
`|stop - start| = 0`, `_find_best_border_line` returns `spec.start`
immediately. -/
theorem find_best_degenerate_start (m : List (List ℕ)) (axis : ℕ)
    (r : ScanRange) (h : (r.stop - r.start).natAbs = 0) :
    find_best_border_line m axis r = r.start := by
  rw [find_best_border_line, if_pos h]

/-- Witness for C9: a concrete degenerate range `range(2, 2)` returns
its start index 2. -/
theorem find_best_degenerate_start_witness :
    ((⟨2, 2⟩ : ScanRange).stop - (⟨2, 2⟩ : ScanRange).start).natAbs = 0 ∧
    find_best_border_line [[1], [1]] 1 ⟨2, 2⟩ = 2 :=
  ⟨by decide, find_best_degenerate_start [[1], [1]] 1 ⟨2, 2⟩ (by decide)⟩

/-- Claim C10: for every mask and every non-empty scan range, the index
returned by `_find_best_border_line` is a member of the scanned
sequence (inclusive of start, exclusive of stop): the running maximum
starts at -1 and every score is non-negative, so the first scanned
index always replaces the initial value. -/
theorem find_best_in_scanned (m : List (List ℕ)) (axis : ℕ) (r : ScanRange)
    (h : r.toList ≠ []) : find_best_border_line m axis r ∈ r.toList := by
  have hspan : (r.stop - r.start).natAbs ≠ 0 := by
    intro habs
    exact h (List.length_eq_zero.mp (by rw [r.length_toList, habs]))
  rw [find_best_border_line, if_neg hspan]
  rcases argStep_foldl_spec (lineScore m axis r) r.toList (r.start, (-1 : ℚ)) with
    ⟨_, hall⟩ | ⟨l1, l2, heq, _, _, _, _⟩
  · exfalso
    obtain ⟨j, hj⟩ := List.exists_mem_of_ne_nil r.toList h
    have h1 : lineScore m axis r j < -1 := hall j hj
    have h2 := lineScore_nonneg m axis r j
    linarith
  · have hmem : (List.foldl (argStep (lineScore m axis r)) (r.start, (-1 : ℚ))
        r.toList).1 ∈ l1 ++ (List.foldl (argStep (lineScore m axis r))
        (r.start, (-1 : ℚ)) r.toList).1 :: l2 :=
      List.mem_append_right _ (List.mem_cons_self _ _)
    rw [← heq] at hmem
    exact hmem

/-- Witness for C10: on a concrete mask and the range `range(0, 3)` the
returned index lies in the scanned sequence. -/
theorem find_best_in_scanned_witness :
    (⟨0, 3⟩ : ScanRange).toList ≠ [] ∧
    find_best_border_line [[1], [0], [1]] 1 ⟨0, 3⟩ ∈ (⟨0, 3⟩ : ScanRange).toList :=
  ⟨by decide, find_best_in_scanned [[1], [0], [1]] 1 ⟨0, 3⟩ (by decide)⟩

/-- Claim C4: for every mask and every scan range with positive span,
`_find_best_border_line` returns a scanned index whose score
`continuity × (1 + |i - start| / span)` is maximal, and among the
scanned indices achieving the maximum it returns the one scanned
latest: every index scanned after the returned one has a strictly
smaller score. -/
theorem find_best_maximizes_latest (m : List (List ℕ)) (axis : ℕ)
    (r : ScanRange) (h : (r.stop - r.start).natAbs ≠ 0) :
    ∃ l1 l2,
      r.toList = l1 ++ find_best_border_line m axis r :: l2 ∧
      (∀ j ∈ r.toList, lineScore m axis r j ≤
        lineScore m axis r (find_best_border_line m axis r)) ∧
      (∀ j ∈ l2, lineScore m axis r j <
        lineScore m axis r (find_best_border_line m axis r)) := by
  rw [find_best_border_line, if_neg h]
  set g := lineScore m axis r with hg
  set res := List.foldl (argStep g) (r.start, (-1 : ℚ)) r.toList with hres
  have hne : r.toList ≠ [] := by
    intro habs
    have hlen := r.length_toList
    rw [habs] at hlen
    simp at hlen
    omega
  rcases argStep_foldl_spec g r.toList (r.start, (-1 : ℚ)) with
    ⟨_, hall⟩ | ⟨l1, l2, heq, hval, _, hle, hlt⟩
  · exfalso
    obtain ⟨j, hj⟩ := List.exists_mem_of_ne_nil r.toList hne
    have h1 : g j < -1 := hall j hj
    have h2 : (0 : ℚ) ≤ g j := lineScore_nonneg m axis r j
    linarith
  · rw [← hres] at heq hval hle hlt
    refine ⟨l1, l2, heq, ?_, ?_⟩
    · intro j hj
      rw [heq] at hj
      rcases List.mem_append.mp hj with hj1 | hj2
      · rw [← hval]
        exact hle j hj1
      · rcases List.mem_cons.mp hj2 with hj3 | hj3
        · rw [hj3]
        · rw [← hval]
          exact le_of_lt (hlt j hj3)
    · intro j hj
      rw [← hval]
      exact hlt j hj

/-- Witness for C4: on a concrete mask the score of the first scanned
index is dominated by the score of the returned index. -/
theorem find_best_maximizes_latest_witness :
    ((⟨0, 3⟩ : ScanRange).stop - (⟨0, 3⟩ : ScanRange).start).natAbs ≠ 0 ∧
    lineScore [[1], [0], [1]] 1 ⟨0, 3⟩ 0 ≤
      lineScore [[1], [0], [1]] 1 ⟨0, 3⟩
        (find_best_border_line [[1], [0], [1]] 1 ⟨0, 3⟩) := by
  refine ⟨by decide, ?_⟩
  obtain ⟨l1, l2, _, hmax, _⟩ :=
    find_best_maximizes_latest [[1], [0], [1]] 1 ⟨0, 3⟩ (by decide)
  exact hmax 0 (by decide)

/-- Counterexample for C3: `range(0, 3)` over the uniformly
all-background 3×1 mask has positive span, yet the function returns 2,
the last scanned index, not `spec.start = 0`. -/
theorem find_best_uniform_counterexample :
    (∀ i ∈ (⟨0, 3⟩ : ScanRange).toList, continuity [[0], [0], [0]] 1 i = 0) ∧
    ((⟨0, 3⟩ : ScanRange).stop - (⟨0, 3⟩ : ScanRange).start).natAbs ≠ 0 ∧
    find_best_border_line [[0], [0], [0]] 1 ⟨0, 3⟩ = 2 ∧
    (2 : ℤ) ≠ (⟨0, 3⟩ : ScanRange).start := by
  refine ⟨by decide, by decide, ?_, by decide⟩
  have h := uniform_scan_returns_last [[0], [0], [0]] 1 ⟨0, 3⟩ 0 (by decide) (by decide)
  rw [h]
  decide

/-- Claim C3 (amended): for every scan range with positive span over a
mask whose scanned lines all have one constant continuity (in
particular uniformly all-foreground or all-background),
`_find_best_border_line` returns the LAST index scanned — the one
adjacent to `stop` — not `spec.start`. -/
theorem find_best_uniform_last (m : List (List ℕ)) (axis : ℕ)
    (r : ScanRange) (c : ℕ)
    (hspan : (r.stop - r.start).natAbs ≠ 0)
    (hc : ∀ i ∈ r.toList, continuity m axis i = c) :
    find_best_border_line m axis r =
      if r.start ≤ r.stop then r.stop - 1 else r.stop + 1 := by
  rw [uniform_scan_returns_last m axis r c hspan hc, ScanRange.elem]
  by_cases h : r.start ≤ r.stop
  · rw [if_pos h, if_pos h]
    omega
  · rw [if_neg h, if_neg h]
    omega

/-- Witness for C3 (amended): a uniformly all-foreground 3×1 mask over
`range(0, 3)` yields index 2 (the last scanned index). -/
theorem find_best_uniform_last_witness :
    ((⟨0, 3⟩ : ScanRange).stop - (⟨0, 3⟩ : ScanRange).start).natAbs ≠ 0 ∧
    find_best_border_line [[1], [1], [1]] 1 ⟨0, 3⟩ = 2 := by
  refine ⟨by decide, ?_⟩
  have h := find_best_uniform_last [[1], [1], [1]] 1 ⟨0, 3⟩ 1 (by decide) (by decide)
  rw [h]
  decide

/-! ## Helper lemmas: layout sorter -/

/-- Python `max` over a non-empty list returns an element of the list. -/
theorem pyMaxBy_foldl_mem (key : α → ℚ) :
    ∀ (xs : List α) (x : α),
      xs.foldl (fun m a => if key m < key a then a else m) x ∈ x :: xs := by
  intro xs
  induction xs with
  | nil =>
    intro x
    exact List.mem_cons_self _ _
  | cons y ys ih =>
    intro x
    rw [List.foldl_cons]
    by_cases h : key x < key y
    · rw [if_pos h]
      exact List.mem_cons_of_mem x (ih y)
    · rw [if_neg h]
      rcases List.mem_cons.mp (ih x) with h1 | h1
      · rw [h1]
        exact List.mem_cons_self _ _
      · exact List.mem_cons_of_mem _ (List.mem_cons_of_mem _ h1)

theorem pyMaxBy_eq_some (key : α → ℚ) (l : List α) (h : l ≠ []) :
    ∃ m, pyMaxBy key l = some m ∧ m ∈ l := by
  cases l with
  | nil => exact absurd rfl h
  | cons x xs => exact ⟨_, rfl, pyMaxBy_foldl_mem key xs x⟩

/-- The running `max` fold dominates its seed and every element. -/
theorem foldl_max_le : ∀ (l : List ℤ) (a : ℤ),
    a ≤ l.foldl max a ∧ ∀ v ∈ l, v ≤ l.foldl max a := by
  intro l
  induction l with
  | nil =>
    intro a
    exact ⟨le_refl _, by simp⟩
  | cons x xs ih =>
    intro a
    rw [List.foldl_cons]
    obtain ⟨h1, h2⟩ := ih (max a x)
    refine ⟨le_trans (le_max_left a x) h1, ?_⟩
    intro v hv
    rcases List.mem_cons.mp hv with hv | hv
    · rw [hv]
      exact le_trans (le_max_right a x) h1
    · exact h2 v hv

/-- The running `max` fold lands on its seed or on an element. -/
theorem foldl_max_mem : ∀ (l : List ℤ) (a : ℤ),
    l.foldl max a = a ∨ l.foldl max a ∈ l := by
  intro l
  induction l with
  | nil =>
    intro a
    exact Or.inl rfl
  | cons x xs ih =>
    intro a
    rw [List.foldl_cons]
    rcases ih (max a x) with h | h
    · rcases max_choice a x with hm | hm
      · exact Or.inl (by rw [h, hm])
      · exact Or.inr (by rw [h, hm]; exact List.mem_cons_self _ _)
    · exact Or.inr (List.mem_cons_of_mem _ h)

/-- First merge-loop equation: an exhausted spanning list appends the
remaining non-spanning items. -/
theorem mergeByYTop_nil (ns : List (PanelData α)) :
    mergeByYTop ns [] = ns.map (fun d => d.item) := by
  cases ns <;> simp [mergeByYTop]

/-- The merge loop emits exactly the items of both inputs. -/
theorem mergeByYTop_perm (ns ss : List (PanelData α)) :
    (mergeByYTop ns ss).Perm
      (ns.map (fun d => d.item) ++ ss.map (fun d => d.item)) := by
  induction ns generalizing ss with
  | nil =>
    cases ss with
    | nil => simp [mergeByYTop]
    | cons s ss => simp [mergeByYTop]
  | cons n ns ihn =>
    induction ss with
    | nil =>
      simp [mergeByYTop_nil]
    | cons s ss ihs =>
      rw [mergeByYTop]
      by_cases h : s.yTop < n.yTop
      · rw [if_pos h]
        refine ((ihs).cons s.item).trans ?_
        exact List.perm_middle.symm
      · rw [if_neg h]
        exact ((ihn (s :: ss)).cons n.item)

/-- Membership in the `spanning` comprehension is exactly the width
test. -/
theorem mem_spanningOf_iff (f : α → Rect) (items : List α)
    (d : PanelData α) (hd : d ∈ panelData f items) :
    d ∈ spanningOf f items ↔ (fullWidth f items : ℚ) * 0.6 ≤ (d.w : ℚ) := by
  rw [spanningOf, List.mem_filter]
  simp [hd]

/-- The `d not in spanning` membership test coincides with the negated
width test, because membership in the comprehension is value-determined. -/
theorem remaining_filter_eq [DecidableEq α] (f : α → Rect) (items : List α) :
    (panelData f items).filter (fun d => decide (d ∉ spanningOf f items)) =
      (panelData f items).filter
        (fun d => !(decide ((fullWidth f items : ℚ) * 0.6 ≤ (d.w : ℚ)))) := by
  apply List.filter_congr
  intro d hd
  by_cases h : (fullWidth f items : ℚ) * 0.6 ≤ (d.w : ℚ)
  · simp [mem_spanningOf_iff f items d hd, h]
  · simp [mem_spanningOf_iff f items d hd, h]

/-- Complement-membership filtering: keeping the elements not in
`data.filter p` and appending `data.filter p` is a permutation of
`data`, since membership in the filtered list is value-determined. -/
theorem filter_not_mem_filter_perm [DecidableEq β] (p : β → Bool)
    (data : List β) :
    (data.filter (fun d => decide (d ∉ data.filter p)) ++
      data.filter p).Perm data := by
  have heq : data.filter (fun d => decide (d ∉ data.filter p)) =
      data.filter (fun d => !(p d)) := by
    apply List.filter_congr
    intro d hd
    by_cases h : p d = true
    · simp [List.mem_filter, hd, h]
    · simp [List.mem_filter, hd, h]
  rw [heq]
  exact List.perm_append_comm.trans (List.filter_append_perm p data)

/-- The two lists produced by step 2 (after the guard) always hold, in
some order, exactly the entries of `data`. -/
theorem splitSpanning_perm [DecidableEq α] (f : α → Rect) (items : List α) :
    ((splitSpanning f items).1 ++ (splitSpanning f items).2).Perm
      (panelData f items) := by
  rw [splitSpanning]
  by_cases hg : ((panelData f items).filter
      (fun d => decide (d ∉ spanningOf f items))).length < 2
  · rw [if_pos hg]
    simp
  · rw [if_neg hg]
    exact filter_not_mem_filter_perm _ (panelData f items)

/-- If no panel passes the width test, step 2 yields `(data, [])`. -/
theorem splitSpanning_of_no_spanning [DecidableEq α] (f : α → Rect)
    (items : List α) (h : spanningOf f items = []) :
    splitSpanning f items = (panelData f items, []) := by
  rw [splitSpanning, h]
  simp

/-- Length of the post-guard `remaining` list is at least 2 whenever the
input has at least two items. -/
theorem splitSpanning_fst_length [DecidableEq α] (f : α → Rect)
    (items : List α) (h : 2 ≤ items.length) :
    2 ≤ (splitSpanning f items).1.length := by
  rw [splitSpanning]
  by_cases hg : ((panelData f items).filter
      (fun d => decide (d ∉ spanningOf f items))).length < 2
  · rw [if_pos hg]
    simpa [panelData] using h
  · rw [if_neg hg]
    exact le_of_not_lt hg

theorem xCenters_length [DecidableEq α] (f : α → Rect) (items : List α) :
    (xCenters f items).length = (splitSpanning f items).1.length := by
  rw [xCenters, sortedRemaining, List.length_map, List.length_insertionSort]

/-- With at least two remaining panels the gap search and the two list
subscripts of step 3 all succeed. -/
theorem splitXOf_isSome [DecidableEq α] (f : α → Rect) (items : List α)
    (h : 2 ≤ items.length) : ∃ q, splitXOf f items = some q := by
  have hxlen : 2 ≤ (xCenters f items).length := by
    rw [xCenters_length]
    exact splitSpanning_fst_length f items h
  have hgne : gapsOf f items ≠ [] := by
    rw [gapsOf]
    intro habs
    have := congrArg List.length habs
    rw [List.length_map, List.length_range] at this
    simp at this
    omega
  obtain ⟨g, hpy, hgmem⟩ := pyMaxBy_eq_some (fun g => g.1) (gapsOf f items) hgne
  have hidx : splitIdxOf f items = g.2 := by
    rw [splitIdxOf, hpy]
  have hglt : g.2 + 1 < (xCenters f items).length := by
    rw [gapsOf] at hgmem
    obtain ⟨i, hi, hgi⟩ := List.mem_map.mp hgmem
    have : g.2 = i := by rw [← hgi]
    rw [this]
    have := List.mem_range.mp hi
    omega
  obtain ⟨a, ha⟩ : ∃ a, (xCenters f items)[splitIdxOf f items]? = some a := by
    rw [List.getElem?_eq_getElem (by omega)]
    exact ⟨_, rfl⟩
  obtain ⟨b, hb⟩ : ∃ b, (xCenters f items)[splitIdxOf f items + 1]? = some b := by
    rw [List.getElem?_eq_getElem (by rw [hidx]; omega)]
    exact ⟨_, rfl⟩
  refine ⟨(a + b) / 2, ?_⟩
  rw [splitXOf, ha, hb]

/-- Running the sorter on a non-empty input whose split succeeds: the
remainder of the pipeline in closed form. -/
theorem sort_panels_run [DecidableEq α] (f : α → Rect) (items : List α)
    (rtl_order : Bool) (sx : ℚ) (hne : ¬ items = [])
    (hsx : splitXOf f items = some sx) :
    sort_panels_by_column_then_row f items rtl_order =
      some (mergeByYTop
        ((if rtl_order then
            [(sortedRemaining f items).filter (fun d => decide (sx ≤ d.xCenter)),
             (sortedRemaining f items).filter (fun d => decide (d.xCenter < sx))]
          else
            [(sortedRemaining f items).filter (fun d => decide (d.xCenter < sx)),
             (sortedRemaining f items).filter (fun d => decide (sx ≤ d.xCenter))]).foldl
          (fun acc col => acc ++ col.insertionSort leYT) [])
        ((splitSpanning f items).2.insertionSort leYT)) := by
  rw [sort_panels_by_column_then_row, if_neg hne, hsx]

/-- Splitting a list into the `< sx` and `>= sx` parts is a
permutation of the list. -/
theorem filter_lt_ge_perm (sx : ℚ) (l : List (PanelData α)) :
    (l.filter (fun d => decide (d.xCenter < sx)) ++
      l.filter (fun d => decide (sx ≤ d.xCenter))).Perm l := by
  have heq : l.filter (fun d => decide (sx ≤ d.xCenter)) =
      l.filter (fun d => !(decide (d.xCenter < sx))) := by
    apply List.filter_congr
    intro d _
    by_cases h : d.xCenter < sx
    · simp [h, not_le.mpr h]
    · simp [h, not_lt.mp h]
  rw [heq]
  exact List.filter_append_perm _ l

/-- Mapping the stored item of each `data` entry recovers the input. -/
theorem panelData_map_item (f : α → Rect) (items : List α) :
    (panelData f items).map (fun d => d.item) = items := by
  rw [panelData, List.map_map]
  exact List.map_id items

/-! ## Claims about `sort_panels_by_column_then_row` -/

/-- Claim C8: whenever `sort_panels_by_column_then_row` returns, the
returned sequence is a permutation of the input collection (same
length, same multiset), and every returned element is one of the
caller's input items — the pipeline only ever emits the stored `d[0]`
references, never derived copies. -/
theorem sort_panels_perm_of_input [DecidableEq α] (f : α → Rect)
    (items : List α) (rtl_order : Bool) (out : List α)
    (h : sort_panels_by_column_then_row f items rtl_order = some out) :
    out.Perm items ∧ ∀ a ∈ out, a ∈ items := by
  have hperm : out.Perm items := by
    by_cases hne : items = []
    · subst hne
      rw [sort_panels_by_column_then_row] at h
      simp at h
      rw [← h]
    · cases hsx : splitXOf f items with
      | none =>
        rw [sort_panels_by_column_then_row, if_neg hne, hsx] at h
        exact Option.noConfusion h
      | some sx =>
        rw [sort_panels_run f items rtl_order sx hne hsx] at h
        have hout := Option.some_inj.mp h
        rw [← hout]
        refine (mergeByYTop_perm _ _).trans ?_
        rw [← List.map_append]
        have hsortLR :
            ((((sortedRemaining f items).filter
                (fun d => decide (d.xCenter < sx))).insertionSort leYT) ++
              (((sortedRemaining f items).filter
                (fun d => decide (sx ≤ d.xCenter))).insertionSort leYT)).Perm
              ((splitSpanning f items).1) :=
          (List.Perm.append (List.perm_insertionSort _ _)
            (List.perm_insertionSort _ _)).trans
            ((filter_lt_ge_perm sx _).trans (List.perm_insertionSort leXC _))
        have hbig :
            (((if rtl_order then
                [(sortedRemaining f items).filter (fun d => decide (sx ≤ d.xCenter)),
                 (sortedRemaining f items).filter (fun d => decide (d.xCenter < sx))]
              else
                [(sortedRemaining f items).filter (fun d => decide (d.xCenter < sx)),
                 (sortedRemaining f items).filter (fun d => decide (sx ≤ d.xCenter))] :
                List (List (PanelData α))).foldl
              (fun (acc col : List (PanelData α)) => acc ++ col.insertionSort leYT)
              []) ++
              ((splitSpanning f items).2.insertionSort leYT)).Perm
              (panelData f items) := by
          refine (List.Perm.append ?_ (List.perm_insertionSort leYT _)).trans
            (splitSpanning_perm f items)
          cases rtl_order
          · exact hsortLR
          · exact List.perm_append_comm.trans hsortLR
        have hlast : ((panelData f items).map (fun d => d.item)).Perm items := by
          rw [panelData_map_item]
        exact (hbig.map _).trans hlast
  exact ⟨hperm, fun a ha => hperm.mem_iff.mp ha⟩

/-- Claim C1 (code bug): the empty input returns an empty sequence and
every input with at least two panels returns normally, but an input of
exactly one panel does NOT return normally: `remaining` is reset to the
single-entry `data`, `gaps` is empty, `split_idx` defaults to 0, and
`x_centers[split_idx + 1]` raises IndexError (modelled `none`) —
contradicting the claim that every non-empty input returns. -/
theorem sort_panels_totality :
    (∀ (rtl_order : Bool),
      sort_panels_by_column_then_row (fun r => r) ([] : List Rect) rtl_order =
        some []) ∧
    sort_panels_by_column_then_row (fun r => r)
      [(⟨0, 0, 10, 10⟩ : Rect)] false = none ∧
    (∀ (α : Type) [DecidableEq α] (f : α → Rect) (items : List α)
      (rtl_order : Bool), 2 ≤ items.length →
      (sort_panels_by_column_then_row f items rtl_order).isSome = true) := by
  refine ⟨fun rtl_order => rfl, ?_, ?_⟩
  · have h1 : panelData (fun r => r) [(⟨0, 0, 10, 10⟩ : Rect)] =
        [⟨⟨0, 0, 10, 10⟩, 5, 0, 0, 0, 10, 10⟩] := by
      norm_num [panelData]
    have h2 : fullWidth (fun r => r) [(⟨0, 0, 10, 10⟩ : Rect)] = 10 := by
      norm_num [fullWidth]
    have hs : spanningOf (fun r => r) [(⟨0, 0, 10, 10⟩ : Rect)] =
        [⟨⟨0, 0, 10, 10⟩, 5, 0, 0, 0, 10, 10⟩] := by
      rw [spanningOf, h1, h2]
      norm_num
    have h3 : splitSpanning (fun r => r) [(⟨0, 0, 10, 10⟩ : Rect)] =
        ([⟨⟨0, 0, 10, 10⟩, 5, 0, 0, 0, 10, 10⟩], []) := by
      rw [splitSpanning, h1, hs]
      norm_num
    have h4 : sortedRemaining (fun r => r) [(⟨0, 0, 10, 10⟩ : Rect)] =
        [⟨⟨0, 0, 10, 10⟩, 5, 0, 0, 0, 10, 10⟩] := by
      rw [sortedRemaining, h3]
      rfl
    have h5 : xCenters (fun r => r) [(⟨0, 0, 10, 10⟩ : Rect)] = [5] := by
      rw [xCenters, h4]
      rfl
    have h6 : splitXOf (fun r => r) [(⟨0, 0, 10, 10⟩ : Rect)] = none := by
      have hi : splitIdxOf (fun r => r) [(⟨0, 0, 10, 10⟩ : Rect)] = 0 := by
        rw [splitIdxOf, gapsOf, h5]
        rfl
      rw [splitXOf, hi, h5]
      rfl
    rw [sort_panels_by_column_then_row]
    simp [h6]
  · intro α _inst f items rtl_order hlen
    have hne : ¬ items = [] := by
      intro habs
      rw [habs] at hlen
      simp at hlen
    obtain ⟨q, hq⟩ := splitXOf_isSome f items hlen
    rw [sort_panels_by_column_then_row, if_neg hne, hq]
    rfl

/-- Witness for C1: a concrete two-panel input satisfies the length
hypothesis and returns normally. -/
theorem sort_panels_totality_witness :
    2 ≤ ([(⟨0, 0, 10, 10⟩ : Rect), ⟨20, 0, 10, 10⟩] : List Rect).length ∧
    (sort_panels_by_column_then_row (fun r => r)
      [(⟨0, 0, 10, 10⟩ : Rect), ⟨20, 0, 10, 10⟩] false).isSome = true := by
  refine ⟨by decide, ?_⟩
  exact sort_panels_totality.2.2 Rect (fun r => r)
    [(⟨0, 0, 10, 10⟩ : Rect), ⟨20, 0, 10, 10⟩] false (by decide)

/-- Witness for C8: the empty run returns and its output is a
permutation of the input. -/
theorem sort_panels_perm_of_input_witness :
    sort_panels_by_column_then_row (fun r => r) ([] : List Rect) false =
      some [] ∧
    (([] : List Rect).Perm []) :=
  ⟨rfl, (sort_panels_perm_of_input (fun r => r) [] false [] rfl).1⟩

/-- Claim C2 (amended): during the final merge step, whenever the next
spanning panel and the next column (non-spanning) panel have equal
y_top, the NON-SPANNING (column) panel is placed first: the strict `<`
comparison takes the spanning head only on strictly smaller y_top. -/
theorem merge_tie_nonspanning_first (n s : PanelData α)
    (ns ss : List (PanelData α)) (h : s.yTop = n.yTop) :
    mergeByYTop (n :: ns) (s :: ss) = n.item :: mergeByYTop ns (s :: ss) := by
  rw [mergeByYTop]
  rw [if_neg (by rw [h]; exact lt_irrefl n.yTop)]

/-- Witness for C2 (amended): a concrete tie, merged column-first. -/
theorem merge_tie_nonspanning_first_witness :
    ((⟨⟨0, 0, 100, 10⟩, 50, 0, 0, 0, 100, 10⟩ : PanelData Rect).yTop =
      (⟨⟨0, 0, 30, 10⟩, 15, 0, 0, 0, 30, 10⟩ : PanelData Rect).yTop) ∧
    mergeByYTop [(⟨⟨0, 0, 30, 10⟩, 15, 0, 0, 0, 30, 10⟩ : PanelData Rect)]
      [⟨⟨0, 0, 100, 10⟩, 50, 0, 0, 0, 100, 10⟩] =
      (⟨0, 0, 30, 10⟩ : Rect) :: mergeByYTop []
        [(⟨⟨0, 0, 100, 10⟩, 50, 0, 0, 0, 100, 10⟩ : PanelData Rect)] :=
  ⟨rfl, merge_tie_nonspanning_first _ _ _ _ rfl⟩

/-- Counterexample for C2: column panels A = (0,0,30,10), B =
(70,0,30,10) and spanning panel S = (0,0,100,10) all share y_top = 0;
the sorter returns [A, B, S], so at the merge tie the spanning panel is
NOT placed first — the column panels precede it. -/
theorem merge_tie_counterexample :
    sort_panels_by_column_then_row (fun r => r)
      [(⟨0, 0, 30, 10⟩ : Rect), ⟨70, 0, 30, 10⟩, ⟨0, 0, 100, 10⟩] false =
      some [⟨0, 0, 30, 10⟩, ⟨70, 0, 30, 10⟩, ⟨0, 0, 100, 10⟩] ∧
    (⟨⟨0, 0, 100, 10⟩, 50, 0, 0, 0, 100, 10⟩ : PanelData Rect).yTop =
      (⟨⟨0, 0, 30, 10⟩, 15, 0, 0, 0, 30, 10⟩ : PanelData Rect).yTop ∧
    mergeByYTop
      [(⟨⟨0, 0, 30, 10⟩, 15, 0, 0, 0, 30, 10⟩ : PanelData Rect),
       ⟨⟨70, 0, 30, 10⟩, 85, 0, 70, 0, 30, 10⟩]
      [⟨⟨0, 0, 100, 10⟩, 50, 0, 0, 0, 100, 10⟩] =
      [⟨0, 0, 30, 10⟩, ⟨70, 0, 30, 10⟩, ⟨0, 0, 100, 10⟩] := by
  have h1 : panelData (fun r => r)
      [(⟨0, 0, 30, 10⟩ : Rect), ⟨70, 0, 30, 10⟩, ⟨0, 0, 100, 10⟩] =
      [⟨⟨0, 0, 30, 10⟩, 15, 0, 0, 0, 30, 10⟩,
       ⟨⟨70, 0, 30, 10⟩, 85, 0, 70, 0, 30, 10⟩,
       ⟨⟨0, 0, 100, 10⟩, 50, 0, 0, 0, 100, 10⟩] := by
    norm_num [panelData]
  have h2 : fullWidth (fun r => r)
      [(⟨0, 0, 30, 10⟩ : Rect), ⟨70, 0, 30, 10⟩, ⟨0, 0, 100, 10⟩] = 100 := by
    norm_num [fullWidth]
  have hsp : spanningOf (fun r => r)
      [(⟨0, 0, 30, 10⟩ : Rect), ⟨70, 0, 30, 10⟩, ⟨0, 0, 100, 10⟩] =
      [⟨⟨0, 0, 100, 10⟩, 50, 0, 0, 0, 100, 10⟩] := by
    rw [spanningOf, h1, h2]
    norm_num
  have h3 : splitSpanning (fun r => r)
      [(⟨0, 0, 30, 10⟩ : Rect), ⟨70, 0, 30, 10⟩, ⟨0, 0, 100, 10⟩] =
      ([⟨⟨0, 0, 30, 10⟩, 15, 0, 0, 0, 30, 10⟩,
        ⟨⟨70, 0, 30, 10⟩, 85, 0, 70, 0, 30, 10⟩],
       [⟨⟨0, 0, 100, 10⟩, 50, 0, 0, 0, 100, 10⟩]) := by
    rw [splitSpanning, h1, hsp]
    norm_num
  have h4 : sortedRemaining (fun r => r)
      [(⟨0, 0, 30, 10⟩ : Rect), ⟨70, 0, 30, 10⟩, ⟨0, 0, 100, 10⟩] =
      [⟨⟨0, 0, 30, 10⟩, 15, 0, 0, 0, 30, 10⟩,
       ⟨⟨70, 0, 30, 10⟩, 85, 0, 70, 0, 30, 10⟩] := by
    rw [sortedRemaining, h3]
    norm_num [List.insertionSort, List.orderedInsert, leXC]
  have h5 : xCenters (fun r => r)
      [(⟨0, 0, 30, 10⟩ : Rect), ⟨70, 0, 30, 10⟩, ⟨0, 0, 100, 10⟩] = [15, 85] := by
    rw [xCenters, h4]
    rfl
  have hgaps : gapsOf (fun r => r)
      [(⟨0, 0, 30, 10⟩ : Rect), ⟨70, 0, 30, 10⟩, ⟨0, 0, 100, 10⟩] = [(70, 0)] := by
    have hr : List.range 1 = [0] := rfl
    rw [gapsOf, h5]
    norm_num [List.getD]
    rw [hr]
    norm_num [List.getD]
  have hidx : splitIdxOf (fun r => r)
      [(⟨0, 0, 30, 10⟩ : Rect), ⟨70, 0, 30, 10⟩, ⟨0, 0, 100, 10⟩] = 0 := by
    rw [splitIdxOf, hgaps]
    rfl
  have hsx : splitXOf (fun r => r)
      [(⟨0, 0, 30, 10⟩ : Rect), ⟨70, 0, 30, 10⟩, ⟨0, 0, 100, 10⟩] = some 50 := by
    rw [splitXOf, hidx, h5]
    norm_num
  refine ⟨?_, rfl, ?_⟩
  · rw [sort_panels_run (fun r => r) _ false 50 (by simp) hsx, h4, h3]
    norm_num [List.insertionSort, List.orderedInsert, leYT, mergeByYTop]
  · norm_num [mergeByYTop]

/-- Claim C7: with no spanning panels, the sorter emits the whole left
column (x_center < split_x) before the whole right column when
rtl_order is false and the right column first when rtl_order is true,
each column sorted by ascending y_top; and four quadrant panels under
rtl_order = true sort to [top-right, bottom-right, top-left,
bottom-left]. -/
theorem sort_panels_column_order :
    (∀ (α : Type) [DecidableEq α] (f : α → Rect) (items : List α)
      (rtl_order : Bool), 2 ≤ items.length → spanningOf f items = [] →
      ∃ (sx : ℚ) (L R : List (PanelData α)),
        sort_panels_by_column_then_row f items rtl_order =
          some ((if rtl_order then R ++ L else L ++ R).map (fun d => d.item)) ∧
        L.Perm ((panelData f items).filter (fun d => decide (d.xCenter < sx))) ∧
        R.Perm ((panelData f items).filter (fun d => decide (sx ≤ d.xCenter))) ∧
        L.Sorted leYT ∧ R.Sorted leYT) ∧
    sort_panels_by_column_then_row (fun r => r)
      [(⟨0, 0, 10, 10⟩ : Rect), ⟨20, 0, 10, 10⟩, ⟨0, 20, 10, 10⟩,
       ⟨20, 20, 10, 10⟩] true =
      some [⟨20, 0, 10, 10⟩, ⟨20, 20, 10, 10⟩, ⟨0, 0, 10, 10⟩,
            ⟨0, 20, 10, 10⟩] := by
  constructor
  · intro α _inst f items rtl_order hlen hspan
    have hne : ¬ items = [] := by
      intro habs
      rw [habs] at hlen
      simp at hlen
    obtain ⟨sx, hsx⟩ := splitXOf_isSome f items hlen
    have hsp := splitSpanning_of_no_spanning f items hspan
    have hss : (splitSpanning f items).2 = [] := by rw [hsp]
    have hsrem : (sortedRemaining f items).Perm (panelData f items) := by
      rw [sortedRemaining, hsp]
      exact List.perm_insertionSort leXC _
    refine ⟨sx,
      ((sortedRemaining f items).filter
        (fun d => decide (d.xCenter < sx))).insertionSort leYT,
      ((sortedRemaining f items).filter
        (fun d => decide (sx ≤ d.xCenter))).insertionSort leYT,
      ?_, ?_, ?_, ?_, ?_⟩
    · rw [sort_panels_run f items rtl_order sx hne hsx, hss]
      have hnil : List.insertionSort leYT ([] : List (PanelData α)) = [] := rfl
      rw [hnil]
      cases rtl_order
      · rw [mergeByYTop_nil]
        rfl
      · rw [mergeByYTop_nil]
        rfl
    · exact (List.perm_insertionSort leYT _).trans (List.Perm.filter _ hsrem)
    · exact (List.perm_insertionSort leYT _).trans (List.Perm.filter _ hsrem)
    · exact List.sorted_insertionSort leYT _
    · exact List.sorted_insertionSort leYT _
  · have h1 : panelData (fun r => r)
        [(⟨0, 0, 10, 10⟩ : Rect), ⟨20, 0, 10, 10⟩, ⟨0, 20, 10, 10⟩,
         ⟨20, 20, 10, 10⟩] =
        [⟨⟨0, 0, 10, 10⟩, 5, 0, 0, 0, 10, 10⟩,
         ⟨⟨20, 0, 10, 10⟩, 25, 0, 20, 0, 10, 10⟩,
         ⟨⟨0, 20, 10, 10⟩, 5, 20, 0, 20, 10, 10⟩,
         ⟨⟨20, 20, 10, 10⟩, 25, 20, 20, 20, 10, 10⟩] := by
      norm_num [panelData]
    have h2 : fullWidth (fun r => r)
        [(⟨0, 0, 10, 10⟩ : Rect), ⟨20, 0, 10, 10⟩, ⟨0, 20, 10, 10⟩,
         ⟨20, 20, 10, 10⟩] = 30 := by
      norm_num [fullWidth]
    have hspq : spanningOf (fun r => r)
        [(⟨0, 0, 10, 10⟩ : Rect), ⟨20, 0, 10, 10⟩, ⟨0, 20, 10, 10⟩,
         ⟨20, 20, 10, 10⟩] = [] := by
      rw [spanningOf, h1, h2]
      norm_num
    have h3 : splitSpanning (fun r => r)
        [(⟨0, 0, 10, 10⟩ : Rect), ⟨20, 0, 10, 10⟩, ⟨0, 20, 10, 10⟩,
         ⟨20, 20, 10, 10⟩] =
        ([⟨⟨0, 0, 10, 10⟩, 5, 0, 0, 0, 10, 10⟩,
          ⟨⟨20, 0, 10, 10⟩, 25, 0, 20, 0, 10, 10⟩,
          ⟨⟨0, 20, 10, 10⟩, 5, 20, 0, 20, 10, 10⟩,
          ⟨⟨20, 20, 10, 10⟩, 25, 20, 20, 20, 10, 10⟩], []) := by
      rw [splitSpanning_of_no_spanning _ _ hspq, h1]
    have h4 : sortedRemaining (fun r => r)
        [(⟨0, 0, 10, 10⟩ : Rect), ⟨20, 0, 10, 10⟩, ⟨0, 20, 10, 10⟩,
         ⟨20, 20, 10, 10⟩] =
        [⟨⟨0, 0, 10, 10⟩, 5, 0, 0, 0, 10, 10⟩,
         ⟨⟨0, 20, 10, 10⟩, 5, 20, 0, 20, 10, 10⟩,
         ⟨⟨20, 0, 10, 10⟩, 25, 0, 20, 0, 10, 10⟩,
         ⟨⟨20, 20, 10, 10⟩, 25, 20, 20, 20, 10, 10⟩] := by
      rw [sortedRemaining, h3]
      norm_num [List.insertionSort, List.orderedInsert, leXC]
    have h5 : xCenters (fun r => r)
        [(⟨0, 0, 10, 10⟩ : Rect), ⟨20, 0, 10, 10⟩, ⟨0, 20, 10, 10⟩,
         ⟨20, 20, 10, 10⟩] = [5, 5, 25, 25] := by
      rw [xCenters, h4]
      rfl
    have hgaps : gapsOf (fun r => r)
        [(⟨0, 0, 10, 10⟩ : Rect), ⟨20, 0, 10, 10⟩, ⟨0, 20, 10, 10⟩,
         ⟨20, 20, 10, 10⟩] = [(0, 0), (20, 1), (0, 2)] := by
      have hr : List.range 3 = [0, 1, 2] := rfl
      rw [gapsOf, h5]
      norm_num [List.getD]
      rw [hr]
      norm_num [List.getD]
    have hpm : pyMaxBy (fun g => g.1) [((0 : ℚ), 0), (20, 1), (0, 2)] =
        some (20, 1) := by
      norm_num [pyMaxBy]
    have hidx : splitIdxOf (fun r => r)
        [(⟨0, 0, 10, 10⟩ : Rect), ⟨20, 0, 10, 10⟩, ⟨0, 20, 10, 10⟩,
         ⟨20, 20, 10, 10⟩] = 1 := by
      rw [splitIdxOf, hgaps, hpm]
    have hsx : splitXOf (fun r => r)
        [(⟨0, 0, 10, 10⟩ : Rect), ⟨20, 0, 10, 10⟩, ⟨0, 20, 10, 10⟩,
         ⟨20, 20, 10, 10⟩] = some 15 := by
      rw [splitXOf, hidx, h5]
      norm_num
    rw [sort_panels_run (fun r => r) _ true 15 (by simp) hsx, h4, h3]
    norm_num [List.insertionSort, List.orderedInsert, leYT, mergeByYTop]

/-- Witness for C7: the column-order statement holds at the four
quadrant panels (no spanning panel there) under rtl_order = true. -/
theorem sort_panels_column_order_witness :
    2 ≤ ([(⟨0, 0, 10, 10⟩ : Rect), ⟨20, 0, 10, 10⟩, ⟨0, 20, 10, 10⟩,
          ⟨20, 20, 10, 10⟩] : List Rect).length ∧
    spanningOf (fun r => r)
      [(⟨0, 0, 10, 10⟩ : Rect), ⟨20, 0, 10, 10⟩, ⟨0, 20, 10, 10⟩,
       ⟨20, 20, 10, 10⟩] = [] ∧
    ∃ (sx : ℚ) (L R : List (PanelData Rect)),
      sort_panels_by_column_then_row (fun r => r)
        [(⟨0, 0, 10, 10⟩ : Rect), ⟨20, 0, 10, 10⟩, ⟨0, 20, 10, 10⟩,
         ⟨20, 20, 10, 10⟩] true =
        some ((if true then R ++ L else L ++ R).map (fun d => d.item)) ∧
      L.Perm ((panelData (fun r => r)
        [(⟨0, 0, 10, 10⟩ : Rect), ⟨20, 0, 10, 10⟩, ⟨0, 20, 10, 10⟩,
         ⟨20, 20, 10, 10⟩]).filter (fun d => decide (d.xCenter < sx))) ∧
      R.Perm ((panelData (fun r => r)
        [(⟨0, 0, 10, 10⟩ : Rect), ⟨20, 0, 10, 10⟩, ⟨0, 20, 10, 10⟩,
         ⟨20, 20, 10, 10⟩]).filter (fun d => decide (sx ≤ d.xCenter))) ∧
      L.Sorted leYT ∧ R.Sorted leYT := by
  have hspq : spanningOf (fun r => r)
      [(⟨0, 0, 10, 10⟩ : Rect), ⟨20, 0, 10, 10⟩, ⟨0, 20, 10, 10⟩,
       ⟨20, 20, 10, 10⟩] = [] := by
    have h1 : panelData (fun r => r)
        [(⟨0, 0, 10, 10⟩ : Rect), ⟨20, 0, 10, 10⟩, ⟨0, 20, 10, 10⟩,
         ⟨20, 20, 10, 10⟩] =
        [⟨⟨0, 0, 10, 10⟩, 5, 0, 0, 0, 10, 10⟩,
         ⟨⟨20, 0, 10, 10⟩, 25, 0, 20, 0, 10, 10⟩,
         ⟨⟨0, 20, 10, 10⟩, 5, 20, 0, 20, 10, 10⟩,
         ⟨⟨20, 20, 10, 10⟩, 25, 20, 20, 20, 10, 10⟩] := by
      norm_num [panelData]
    have h2 : fullWidth (fun r => r)
        [(⟨0, 0, 10, 10⟩ : Rect), ⟨20, 0, 10, 10⟩, ⟨0, 20, 10, 10⟩,
         ⟨20, 20, 10, 10⟩] = 30 := by
      norm_num [fullWidth]
    rw [spanningOf, h1, h2]
    norm_num
  exact ⟨by decide, hspq,
    sort_panels_column_order.1 Rect (fun r => r) _ true (by decide) hspq⟩

/-- Claim C6: a panel is classified spanning exactly when its width is
at least 0.6 times full_width; for well-formed rectangles full_width is
the maximum of x + width over the inputs; and when fewer than 2 panels
are classified non-spanning, all panels are treated as non-spanning and
the spanning set is emptied. -/
theorem spanning_classification :
    ∀ (α : Type) [DecidableEq α] (f : α → Rect) (items : List α),
      items ≠ [] →
      (∀ it ∈ items, 0 ≤ (f it).x ∧ 0 < (f it).w) →
      ((∀ d ∈ panelData f items,
        (d ∈ spanningOf f items ↔ (fullWidth f items : ℚ) * 0.6 ≤ (d.w : ℚ))) ∧
      fullWidth f items ∈ items.map (fun it => (f it).x + (f it).w) ∧
      (∀ v ∈ items.map (fun it => (f it).x + (f it).w), v ≤ fullWidth f items) ∧
      (((panelData f items).filter
          (fun d => decide (d ∉ spanningOf f items))).length < 2 →
        splitSpanning f items = (panelData f items, []))) := by
  intro α _inst f items hne hwf
  have hfw : fullWidth f items =
      (items.map (fun it => (f it).x + (f it).w)).foldl max 0 := by
    rw [fullWidth, List.foldl_map]
  refine ⟨?_, ?_, ?_, ?_⟩
  · intro d hd
    exact mem_spanningOf_iff f items d hd
  · rw [hfw]
    rcases foldl_max_mem (items.map (fun it => (f it).x + (f it).w)) 0 with
      h0 | hmem
    · exfalso
      obtain ⟨it0, hit0⟩ := List.exists_mem_of_ne_nil items hne
      have hv0 : (f it0).x + (f it0).w ∈
          items.map (fun it => (f it).x + (f it).w) :=
        List.mem_map_of_mem _ hit0
      have hle := (foldl_max_le (items.map (fun it => (f it).x + (f it).w)) 0).2
        _ hv0
      obtain ⟨hx, hw⟩ := hwf it0 hit0
      rw [h0] at hle
      omega
    · exact hmem
  · intro v hv
    rw [hfw]
    exact (foldl_max_le (items.map (fun it => (f it).x + (f it).w)) 0).2 v hv
  · intro hlt
    rw [splitSpanning, if_pos hlt]

/-- Witness for C6: the width test at a concrete spanning panel, the
realised maximum, and the guard firing on a singleton input. -/
theorem spanning_classification_witness :
    ((⟨⟨0, 0, 100, 10⟩, 50, 0, 0, 0, 100, 10⟩ : PanelData Rect) ∈
      spanningOf (fun r => r)
        [(⟨0, 0, 30, 10⟩ : Rect), ⟨70, 0, 30, 10⟩, ⟨0, 0, 100, 10⟩] ↔
      (fullWidth (fun r => r)
        [(⟨0, 0, 30, 10⟩ : Rect), ⟨70, 0, 30, 10⟩, ⟨0, 0, 100, 10⟩] : ℚ) * 0.6 ≤
        (((⟨⟨0, 0, 100, 10⟩, 50, 0, 0, 0, 100, 10⟩ : PanelData Rect).w : ℤ) : ℚ)) ∧
    fullWidth (fun r => r)
      [(⟨0, 0, 30, 10⟩ : Rect), ⟨70, 0, 30, 10⟩, ⟨0, 0, 100, 10⟩] ∈
      ([(⟨0, 0, 30, 10⟩ : Rect), ⟨70, 0, 30, 10⟩,
        ⟨0, 0, 100, 10⟩].map (fun it => it.x + it.w)) ∧
    splitSpanning (fun r => r) [(⟨0, 0, 10, 10⟩ : Rect)] =
      (panelData (fun r => r) [(⟨0, 0, 10, 10⟩ : Rect)], []) := by
  have c3 := spanning_classification Rect (fun r => r)
    [(⟨0, 0, 30, 10⟩ : Rect), ⟨70, 0, 30, 10⟩, ⟨0, 0, 100, 10⟩]
    (by decide) (by decide)
  have c1 := spanning_classification Rect (fun r => r)
    [(⟨0, 0, 10, 10⟩ : Rect)] (by decide) (by decide)
  have h1 : panelData (fun r => r)
      [(⟨0, 0, 30, 10⟩ : Rect), ⟨70, 0, 30, 10⟩, ⟨0, 0, 100, 10⟩] =
      [⟨⟨0, 0, 30, 10⟩, 15, 0, 0, 0, 30, 10⟩,
       ⟨⟨70, 0, 30, 10⟩, 85, 0, 70, 0, 30, 10⟩,
       ⟨⟨0, 0, 100, 10⟩, 50, 0, 0, 0, 100, 10⟩] := by
    norm_num [panelData]
  have hdS : (⟨⟨0, 0, 100, 10⟩, 50, 0, 0, 0, 100, 10⟩ : PanelData Rect) ∈
      panelData (fun r => r)
        [(⟨0, 0, 30, 10⟩ : Rect), ⟨70, 0, 30, 10⟩, ⟨0, 0, 100, 10⟩] := by
    rw [h1]
    norm_num
  have hg1 : panelData (fun r => r) [(⟨0, 0, 10, 10⟩ : Rect)] =
      [⟨⟨0, 0, 10, 10⟩, 5, 0, 0, 0, 10, 10⟩] := by
    norm_num [panelData]
  have hg2 : fullWidth (fun r => r) [(⟨0, 0, 10, 10⟩ : Rect)] = 10 := by
    norm_num [fullWidth]
  have hgs : spanningOf (fun r => r) [(⟨0, 0, 10, 10⟩ : Rect)] =
      [⟨⟨0, 0, 10, 10⟩, 5, 0, 0, 0, 10, 10⟩] := by
    rw [spanningOf, hg1, hg2]
    norm_num
  have hlt : ((panelData (fun r => r) [(⟨0, 0, 10, 10⟩ : Rect)]).filter
      (fun d => decide (d ∉ spanningOf (fun r => r)
        [(⟨0, 0, 10, 10⟩ : Rect)]))).length < 2 := by
    rw [hg1, hgs]
    norm_num
  exact ⟨c3.1 _ hdS, c3.2.1, c1.2.2.2 hlt⟩

/-! ## Claim about `remove_border` -/

/-- Claim C5: `remove_border` returns its input image unchanged (no
error raised) in each early-exit case: the image is absent or its
height or width is below 30; no contour is found after preprocessing;
the computed crop coordinates satisfy x1 >= x2 or y1 >= y2; or the
cropped region has height or width below 10 pixels. -/
theorem remove_border_early_exits :
    ∀ (ops : CvOps) (ratio : ℚ) (padding : ℤ),
      remove_border ops none ratio padding = none ∧
      (∀ img : Image, img.height < 30 ∨ img.width < 30 →
        remove_border ops (some img) ratio padding = some img) ∧
      (∀ img : Image,
        ops.findContours (ops.threshold (ops.copyMakeBorder img 15)) = [] →
        remove_border ops (some img) ratio padding = some img) ∧
      (∀ (img : Image) (x1 y1 x2 y2 : ℤ),
        cropCoords ops img ratio padding = some (x1, y1, x2, y2) →
        x2 ≤ x1 ∨ y2 ≤ y1 →
        remove_border ops (some img) ratio padding = some img) ∧
      (∀ (img : Image) (x1 y1 x2 y2 : ℤ),
        cropCoords ops img ratio padding = some (x1, y1, x2, y2) →
        ¬(x2 ≤ x1 ∨ y2 ≤ y1) →
        ((ops.crop (ops.copyMakeBorder img 15) y1 y2 x1 x2).height < 10 ∨
          (ops.crop (ops.copyMakeBorder img 15) y1 y2 x1 x2).width < 10) →
        remove_border ops (some img) ratio padding = some img) := by
  intro ops ratio padding
  refine ⟨rfl, ?_, ?_, ?_, ?_⟩
  · intro img h
    simp only [remove_border]
    rw [if_pos h]
  · intro img h
    have hcc : cropCoords ops img ratio padding = none := by
      simp [cropCoords, h, pyMaxBy]
    by_cases hd : img.height < 30 ∨ img.width < 30
    · simp only [remove_border]
      rw [if_pos hd]
    · simp only [remove_border, hcc]
      rw [if_neg hd]
  · intro img x1 y1 x2 y2 hcc hdeg
    by_cases hd : img.height < 30 ∨ img.width < 30
    · simp only [remove_border]
      rw [if_pos hd]
    · simp only [remove_border, hcc]
      rw [if_neg hd, if_pos hdeg]
  · intro img x1 y1 x2 y2 hcc hdeg hsmall
    by_cases hd : img.height < 30 ∨ img.width < 30
    · simp only [remove_border]
      rw [if_pos hd]
    · simp only [remove_border, hcc]
      rw [if_neg hd, if_neg hdeg, if_pos hsmall]

/-- Witness for C5: every early exit of `remove_border` fires on a
concrete input: absent image, 10×10 image, no contour found, degenerate
crop coordinates (padding 20 collapses the 40×40 box), and a crop of
only 8×8 pixels (padding 16). -/
theorem remove_border_early_exits_witness :
    remove_border opsNoContour none (1 / 4) 5 = none ∧
    ((⟨10, 10, 0⟩ : Image).height < 30 ∨ (⟨10, 10, 0⟩ : Image).width < 30) ∧
    remove_border opsNoContour (some ⟨10, 10, 0⟩) (1 / 4) 5 =
      some ⟨10, 10, 0⟩ ∧
    opsNoContour.findContours (opsNoContour.threshold
      (opsNoContour.copyMakeBorder ⟨40, 40, 0⟩ 15)) = [] ∧
    remove_border opsNoContour (some ⟨40, 40, 0⟩) (1 / 4) 5 =
      some ⟨40, 40, 0⟩ ∧
    cropCoords opsProbe ⟨40, 40, 0⟩ 0 20 = some (20, 20, 20, 20) ∧
    remove_border opsProbe (some ⟨40, 40, 0⟩) 0 20 = some ⟨40, 40, 0⟩ ∧
    cropCoords opsProbe ⟨40, 40, 0⟩ 0 16 = some (16, 16, 24, 24) ∧
    ((opsProbe.crop (opsProbe.copyMakeBorder ⟨40, 40, 0⟩ 15)
        16 24 16 24).height < 10 ∨
      (opsProbe.crop (opsProbe.copyMakeBorder ⟨40, 40, 0⟩ 15)
        16 24 16 24).width < 10) ∧
    remove_border opsProbe (some ⟨40, 40, 0⟩) 0 16 = some ⟨40, 40, 0⟩ := by
  have htop : find_best_border_line [] 1 ⟨0, -1⟩ = 0 := by
    have h := uniform_scan_returns_last [] 1 ⟨0, -1⟩ 0 (by decide) (by decide)
    rw [h]
    decide
  have hleft : find_best_border_line [] 0 ⟨0, -1⟩ = 0 := by
    have h := uniform_scan_returns_last [] 0 ⟨0, -1⟩ 0 (by decide) (by decide)
    rw [h]
    decide
  have hbot : find_best_border_line [] 1 ⟨40, 40⟩ = 40 := by
    rw [find_best_border_line, if_pos (by decide)]
  have hright : find_best_border_line [] 0 ⟨40, 40⟩ = 40 := by
    rw [find_best_border_line, if_pos (by decide)]
  have hcc20 : cropCoords opsProbe ⟨40, 40, 0⟩ 0 20 = some (20, 20, 20, 20) := by
    simp only [cropCoords, opsProbe, pyMaxBy]
    norm_num
    rw [htop, hbot, hleft, hright]
    norm_num
  have hcc16 : cropCoords opsProbe ⟨40, 40, 0⟩ 0 16 = some (16, 16, 24, 24) := by
    simp only [cropCoords, opsProbe, pyMaxBy]
    norm_num
    rw [htop, hbot, hleft, hright]
    norm_num
  obtain ⟨w1, w2, w3, _, _⟩ := remove_border_early_exits opsNoContour (1 / 4) 5
  have p4 := (remove_border_early_exits opsProbe 0 20).2.2.2.1
  have q5 := (remove_border_early_exits opsProbe 0 16).2.2.2.2
  exact ⟨w1, by decide, w2 _ (by decide), rfl, w3 _ rfl, hcc20,
    p4 _ 20 20 20 20 hcc20 (by decide), hcc16, by decide,
    q5 _ 16 16 24 24 hcc16 (by decide) (by decide)⟩
